import Mathlib

/-!
Verification of the Email-Validator program (src/main.py) against its
natural-language specification.

The program is shallowly embedded: strings are lists of characters
(`List Char`), the DNS / socket layer is an oracle (`Network`) supplying the
outcome of each probe, and Python exceptions that escape a function are
modelled with `Except`.  Python's tri-state fields (`True`/`False`/`None`)
become `Option Bool`, and the status strings `'valid'`/`'doubtful'`/
`'invalid'` become the inductive `Status`.
-/

/-- Status enum: the `status` field of a result dictionary, which the source
sets to one of the strings `'valid'`, `'doubtful'`, `'invalid'`. -/
inductive Status where
  | valid
  | doubtful
  | invalid
deriving DecidableEq, Repr, BEq

/-- Embeds the result dictionary built by `validate_email` (src/main.py lines
40-46): keys `email`, `valid_format`, `has_mx`, `domain_exists`, `status`.
`none` models Python's `None` ("unknown"). -/
structure ValidationResult where
  email : List Char
  valid_format : Bool
  has_mx : Option Bool
  domain_exists : Option Bool
  status : Status
deriving DecidableEq, Repr

/-- Characters removed by Python's `str.strip()` at both ends (the ASCII
whitespace set). -/
def isPySpace (c : Char) : Bool :=
  c == ' ' || c == '\t' || c == '\n' || c == '\r' || c == '\x0b' || c == '\x0c'

/-- Embeds Python's `email.strip()`: drop whitespace from the front, then
from the back. -/
def pyStrip (l : List Char) : List Char :=
  ((l.dropWhile isPySpace).reverse.dropWhile isPySpace).reverse

/-- The character class of the regex local part, literally
one of a-z, A-Z, 0-9, dot, underscore, percent, plus, hyphen. -/
def isLocalChar (c : Char) : Bool :=
  c.isAlpha || c.isDigit || c == '.' || c == '_' || c == '%' || c == '+' || c == '-'

/-- The character class of the regex domain part: a-z, A-Z, 0-9, dot,
hyphen. -/
def isDomainChar (c : Char) : Bool :=
  c.isAlpha || c.isDigit || c == '.' || c == '-'

/-- The final regex atom: two-or-more ASCII alphabetic characters, anchored
at the end of the string. -/
def tldOK (t : List Char) : Bool :=
  decide (2 ≤ t.length) && t.all Char.isAlpha

/-- Matches the part of `EMAIL_REGEX` after the `@`: one-or-more domain
characters, a literal dot, then the TLD atom, anchored at the end.  Because
the TLD atom admits no dot, the literal dot of the pattern is necessarily the
last dot of the string, so the match is computed from the rear: the maximal
dot-free suffix must be a valid TLD and everything before the preceding dot
must be one-or-more domain characters. -/
def domainTailOK (r : List Char) : Bool :=
  !(r.reverse.dropWhile (fun c => !(c == '.'))).isEmpty &&
    !((r.reverse.dropWhile (fun c => !(c == '.'))).tail).isEmpty &&
    ((r.reverse.dropWhile (fun c => !(c == '.'))).tail).reverse.all isDomainChar &&
    tldOK (r.reverse.takeWhile (fun c => !(c == '.'))).reverse

/-- Embeds a full anchored match of `EMAIL_REGEX` (src/main.py line 13)
against a string: one-or-more local characters, a literal at-sign, then the
domain tail.  Because neither character class admits the at-sign, the
at-sign of the pattern is necessarily the first at-sign of the string. -/
def matchesEmailRegex (s : List Char) : Bool :=
  !(s.dropWhile (fun c => !(c == '@'))).isEmpty &&
    !(s.takeWhile (fun c => !(c == '@'))).isEmpty &&
    (s.takeWhile (fun c => !(c == '@'))).all isLocalChar &&
    domainTailOK (s.dropWhile (fun c => !(c == '@'))).tail

/-- Embeds `validate_format` (src/main.py lines 15-17): strip the input,
then test a full anchored match of `EMAIL_REGEX` (the pattern is anchored by
its leading caret and trailing dollar; a stripped string cannot end in a
newline, so the trailing dollar can only match at the end of the string). -/
def validate_format (email : List Char) : Bool :=
  matchesEmailRegex (pyStrip email)

/-- The specification's description of the format pattern (spec section 4.1):
the whole string decomposes as one-or-more characters of the local class, a
literal at-sign, one-or-more characters of the domain class, a literal dot,
and two-or-more ASCII alphabetic characters. -/
def EmailShape (s : List Char) : Prop :=
  ∃ l m t : List Char,
    s = l ++ '@' :: (m ++ '.' :: t) ∧
      l ≠ [] ∧ l.all isLocalChar = true ∧
      m ≠ [] ∧ m.all isDomainChar = true ∧
      2 ≤ t.length ∧ t.all Char.isAlpha = true

/-- Truthiness of Python's `not x` on a tri-state value: `not None` is
`True`, `not b` is boolean negation. -/
def pyNot : Option Bool → Bool
  | none => true
  | some b => !b

/-- The exceptions `dns.resolver.resolve` can raise, as caught by
`check_mx_records`: `NoAnswer` and `NXDOMAIN` by the first handler, and any
other `Exception` subclass (timeout, malformed query, resolver internal
error) by the catch-all second handler. -/
inductive DnsException where
  | noAnswer
  | nxdomain
  | otherException
deriving DecidableEq, Repr

/-- Outcome of the MX query `dns.resolver.resolve(domain, 'MX')`: either an
answer holding some number of MX records, or a raised exception. -/
inductive MxOutcome where
  | answer (numRecords : Nat)
  | raises (e : DnsException)
deriving DecidableEq, Repr

/-- Outcome of `socket.gethostbyname(domain)`: an address is returned, or
`socket.gaierror` is raised (name not found, network error), or some
exception that is not a `gaierror` is raised.  The last case is reachable in
CPython: a domain label longer than 63 characters or an empty label (for
example in `b..com`, which passes the format regex) makes the idna encoding
of the hostname raise `UnicodeError`. -/
inductive HostOutcome where
  | address
  | raisesGaierror
  | raisesOther
deriving DecidableEq, Repr

/-- The DNS / socket layer as an oracle: for each domain, the outcome of the
MX query and of the forward-address lookup during this run. -/
structure Network where
  mx : List Char → MxOutcome
  host : List Char → HostOutcome

/-- A record of one network probe having been invoked, used to state that
the short-circuit path performs no probe. -/
inductive ProbeCall where
  | mx (domain : List Char)
  | host (domain : List Char)
deriving DecidableEq, Repr

/-- Embeds `check_mx_records` (src/main.py lines 19-27): resolve MX and
return whether more than zero records came back; both `except` clauses
(`NoAnswer`/`NXDOMAIN`, and the catch-all `Exception`) return `False`, so
the function is total and never propagates an exception. -/
def check_mx_records (net : Network) (domain : List Char) : Bool :=
  match net.mx domain with
  | .answer n => decide (0 < n)
  | .raises .noAnswer => false
  | .raises .nxdomain => false
  | .raises .otherException => false

/-- Embeds `check_domain_exists` (src/main.py lines 29-35): return `True`
when `gethostbyname` succeeds and `False` when it raises `socket.gaierror`.
The `except` clause catches only `gaierror`, so any other exception raised
by the lookup is not caught and propagates to the caller, modelled by
`Except.error`. -/
def check_domain_exists (net : Network) (domain : List Char) : Except Unit Bool :=
  match net.host domain with
  | .address => .ok true
  | .raisesGaierror => .ok false
  | .raisesOther => .error ()

/-- Embeds Python's `str.split(sep)` for a one-character separator: splits
at every occurrence of the separator, keeping empty pieces, so the result
always has one more piece than there are separators. -/
def pySplit (sep : Char) : List Char → List (List Char)
  | [] => [[]]
  | c :: rest =>
    if c == sep then [] :: pySplit sep rest
    else
      match pySplit sep rest with
      | [] => [[c]]
      | p :: ps => (c :: p) :: ps

/-- The substring after the first at-sign of a string (spec section 3,
Domain): drop everything up to and including the first at-sign. -/
def afterFirstAt (l : List Char) : List Char :=
  (l.dropWhile (fun c => !(c == '@'))).tail

/-- Embeds the status classification of `validate_email` (src/main.py lines
45 and 65-70): the dictionary starts at `'invalid'`; when the format is
valid the status becomes `'doubtful'` when `(check_mx and not has_mx) or
(check_domain and not domain_exists)` holds under Python truthiness, else
`'valid'`. -/
def classify (fmt check_mx check_domain : Bool) (has_mx domain_exists : Option Bool) : Status :=
  if fmt then
    if (check_mx && pyNot has_mx) || (check_domain && pyNot domain_exists) then .doubtful
    else .valid
  else .invalid

/-- Embeds `validate_email` (src/main.py lines 37-72).  The input is
stripped (line 39); if the format check fails the initial dictionary is
returned unchanged with no probe invoked (lines 49-50); otherwise the
domain is `email.split('@')[1]` (line 55; `validate_format_domain_defined`
below shows index 1 always exists on this path, so `getD` is faithful), the
requested probes run, and the status is classified.  An exception escaping
`check_domain_exists` propagates out of `validate_email` before any status
is assigned, modelled by `Except.error`.  The second component records
which probes were invoked. -/
def validate_email (net : Network) (email0 : List Char) (check_mx check_domain : Bool) :
    Except Unit (ValidationResult × List ProbeCall) :=
  let email := pyStrip email0
  if validate_format email then
    let domain := (pySplit '@' email).getD 1 []
    let has_mx : Option Bool := if check_mx then some (check_mx_records net domain) else none
    let mxCalls : List ProbeCall := if check_mx then [ProbeCall.mx domain] else []
    if check_domain then
      match check_domain_exists net domain with
      | .error err => .error err
      | .ok b =>
        .ok (⟨email, true, has_mx, some b, classify true check_mx check_domain has_mx (some b)⟩,
          mxCalls ++ [ProbeCall.host domain])
    else
      .ok (⟨email, true, has_mx, none, classify true check_mx check_domain has_mx none⟩, mxCalls)
  else
    .ok (⟨email, false, none, none, Status.invalid⟩, [])

/-- Embeds `re.findall(EMAIL_REGEX, text)` (src/main.py line 174).  The
pattern is anchored by a leading caret and a trailing dollar and `MULTILINE`
is not set, so the caret can match only at position zero and the dollar only
at the end of the text or just before a terminating newline; `findall`
therefore yields the whole text when it matches (or the text minus a final
newline), and nothing otherwise. -/
def findall_anchored (text : List Char) : List (List Char) :=
  if matchesEmailRegex text then [text]
  else if (text.getLast? == some '\n') && matchesEmailRegex text.dropLast then [text.dropLast]
  else []

/-- Embeds `extract_emails_from_text` (src/main.py lines 172-175):
`re.findall` with the anchored pattern, then `list(set(...))` to remove
duplicates. -/
def extract_emails_from_text (text : List Char) : List (List Char) :=
  (findall_anchored text).eraseDups

/-- The observable output of one batch run of `validate_file` (src/main.py
lines 96-144) after the input file has been read: the collected result
list, the sequence of progress percentages printed (one per completed
future), and the summary counts (valid, doubtful, invalid) printed at the
end; `none` when the early empty-input return skips them. -/
structure BatchOutput where
  results : List ValidationResult
  progressEvents : List ℚ
  summary : Option (Nat × Nat × Nat)
deriving DecidableEq, Repr

/-- Embeds the `as_completed` collection loop of `validate_file` (src/main.py
lines 115-128): futures are consumed in completion order; each completed
future's result is appended, `processed` is incremented, and the progress
percentage `(processed / total) * 100` is emitted.  `future.result()`
re-raises an exception that escaped `validate_email`, aborting the loop,
modelled by `Except.error`. -/
def batchLoop (net : Network) (check_mx check_domain : Bool) (total : Nat) :
    List (List Char) → Nat → Except Unit (List ValidationResult × List ℚ)
  | [], _ => .ok ([], [])
  | e :: rest, processed =>
    match validate_email net e check_mx check_domain with
    | .error err => .error err
    | .ok (r, _) =>
      match batchLoop net check_mx check_domain total rest (processed + 1) with
      | .error err => .error err
      | .ok (rs, evs) =>
        .ok (r :: rs, ((processed : ℚ) + 1) / (total : ℚ) * 100 :: evs)

/-- Embeds the core of `validate_file` (src/main.py lines 96-144) after the
input file has been read into `emails`.  On empty input it returns
immediately with no results and no progress or summary events (lines
108-110).  Otherwise one `validate_email` future is submitted per input
line and the completion loop runs; the thread pool's only observable effect
is the order in which futures complete, modelled by the `order` parameter (a
permutation of `emails`); the pool size `workers` has no further observable
effect.  After the loop, the per-status summary counts are computed (lines
133-135). -/
def validate_file_core (net : Network) (check_mx check_domain : Bool)
    (emails order : List (List Char)) (workers : Nat) : Except Unit BatchOutput :=
  if emails.isEmpty then .ok ⟨[], [], none⟩
  else
    match batchLoop net check_mx check_domain emails.length order 0 with
    | .error err => .error err
    | .ok (results, events) =>
      .ok ⟨results, events,
        some (results.countP (fun r => r.status == Status.valid),
          results.countP (fun r => r.status == Status.doubtful),
          results.countP (fun r => r.status == Status.invalid))⟩

/-- A network on which every MX query returns one record and every host
lookup succeeds. -/
def constNet : Network := ⟨fun _ => .answer 1, fun _ => .address⟩

/-- A network on which every MX query raises a generic exception and every
host lookup raises `socket.gaierror`. -/
def raisingNet : Network := ⟨fun _ => .raises .otherException, fun _ => .raisesGaierror⟩

/-- A network on which every host lookup raises an exception that is not a
`gaierror` — as CPython's `gethostbyname` does for a domain with an empty
or over-long label, for example `b..com`. -/
def badHostNet : Network := ⟨fun _ => .raises .otherException, fun _ => .raisesOther⟩

/-- A network on which only the malformed domain `b..com` makes the host
lookup raise a non-`gaierror` exception; every other lookup succeeds. -/
def mixedNet : Network :=
  ⟨fun d => if d == ("b..com".toList) then .raises .otherException else .answer 1,
    fun d => if d == ("b..com".toList) then .raisesOther else .address⟩

theorem dropWhile_cons_head_false {α : Type} {p : α → Bool} :
    ∀ {l : List α} {a : α} {r : List α}, l.dropWhile p = a :: r → p a = false := by
  intro l
  induction l with
  | nil => intro a r h; simp [List.dropWhile] at h
  | cons b bs ih =>
    intro a r h
    rw [List.dropWhile_cons] at h
    by_cases hb : p b = true
    · rw [if_pos hb] at h; exact ih h
    · rw [if_neg hb] at h
      cases h
      simpa using hb

theorem dropWhile_eq_self_of_head {α : Type} {p : α → Bool} {l : List α}
    (h : ∀ b, l.head? = some b → p b = false) : l.dropWhile p = l := by
  cases l with
  | nil => rfl
  | cons a r =>
    rw [List.dropWhile_cons, if_neg]
    simp [h a rfl]

theorem dropWhile_dropWhile {α : Type} (p : α → Bool) (l : List α) :
    (l.dropWhile p).dropWhile p = l.dropWhile p := by
  cases h : l.dropWhile p with
  | nil => rfl
  | cons a r =>
    have ha := dropWhile_cons_head_false h
    rw [List.dropWhile_cons, if_neg]
    simp [ha]

theorem takeWhile_append_cons {α : Type} {p : α → Bool} {l : List α} {a : α}
    (r : List α) (hl : ∀ x ∈ l, p x = true) (ha : p a = false) :
    (l ++ a :: r).takeWhile p = l ∧ (l ++ a :: r).dropWhile p = a :: r := by
  induction l with
  | nil => simp [List.takeWhile_cons, List.dropWhile_cons, ha]
  | cons b bs ih =>
    have hb : p b = true := hl b (by simp)
    have ih' := ih (fun x hx => hl x (by simp [hx]))
    simp [List.takeWhile_cons, List.dropWhile_cons, hb, ih'.1, ih'.2]

theorem pyStrip_idem (l : List Char) : pyStrip (pyStrip l) = pyStrip l := by
  unfold pyStrip
  have hA : ((((l.dropWhile isPySpace).reverse.dropWhile isPySpace).reverse).dropWhile
      isPySpace) = ((l.dropWhile isPySpace).reverse.dropWhile isPySpace).reverse := by
    apply dropWhile_eq_self_of_head
    intro b hb
    rw [List.head?_reverse] at hb
    obtain ⟨pre, hpre⟩ := List.dropWhile_suffix (l := (l.dropWhile isPySpace).reverse)
      (p := isPySpace)
    have hmem : ((l.dropWhile isPySpace).reverse).getLast? = some b := by
      rw [← hpre, List.getLast?_append, hb]
      rfl
    rw [List.getLast?_reverse] at hmem
    cases hX : l.dropWhile isPySpace with
    | nil => rw [hX] at hmem; simp at hmem
    | cons a r =>
      rw [hX] at hmem
      simp at hmem
      rw [← hmem]
      exact dropWhile_cons_head_false hX
  rw [hA, List.reverse_reverse, dropWhile_dropWhile]

theorem validate_format_pyStrip (s : List Char) :
    validate_format (pyStrip s) = validate_format s := by
  unfold validate_format
  rw [pyStrip_idem]

theorem all_ne_of_all_class {q : Char → Bool} {l : List Char} {a : Char}
    (hl : l.all q = true) (ha : q a = false) :
    ∀ x ∈ l, (!(x == a)) = true := by
  intro x hx
  have hq := List.all_eq_true.mp hl x hx
  have hxa : x ≠ a := by
    intro hh
    rw [hh] at hq
    rw [hq] at ha
    exact Bool.noConfusion ha
  simp [hxa]

theorem matches_iff_shape (s : List Char) :
    matchesEmailRegex s = true ↔ EmailShape s := by
  constructor
  · intro h
    rw [matchesEmailRegex] at h
    simp only [Bool.and_eq_true] at h
    obtain ⟨⟨⟨hdne, htne⟩, hall⟩, hdom⟩ := h
    cases hd : s.dropWhile (fun c => !(c == '@')) with
    | nil => rw [hd] at hdne; simp at hdne
    | cons c rest =>
      rw [hd] at hdom
      simp only [List.tail_cons] at hdom
      have hc : c = '@' := by
        have := dropWhile_cons_head_false hd
        simpa using this
      have hsplit : s = s.takeWhile (fun c => !(c == '@')) ++ '@' :: rest := by
        conv_lhs => rw [← List.takeWhile_append_dropWhile (fun c => !(c == '@')) s]
        rw [hd, hc]
      rw [domainTailOK] at hdom
      simp only [Bool.and_eq_true] at hdom
      obtain ⟨⟨⟨hene, hmne'⟩, hmidall⟩, htld⟩ := hdom
      cases he : rest.reverse.dropWhile (fun c => !(c == '.')) with
      | nil => rw [he] at hene; simp at hene
      | cons d midRev =>
        rw [he] at hmne' hmidall
        simp only [List.tail_cons] at hmne' hmidall
        have hdd : d = '.' := by
          have := dropWhile_cons_head_false he
          simpa using this
        obtain ⟨T, hT⟩ : ∃ T, T = rest.reverse.takeWhile (fun c => !(c == '.')) := ⟨_, rfl⟩
        rw [← hT] at htld
        have h1 : rest.reverse = T ++ '.' :: midRev := by
          conv_lhs => rw [← List.takeWhile_append_dropWhile (fun c => !(c == '.')) rest.reverse]
          rw [he, hdd, hT]
        have h2 : rest = midRev.reverse ++ '.' :: T.reverse := by
          have h3 := congrArg List.reverse h1
          rw [List.reverse_reverse] at h3
          rw [h3]
          simp [List.reverse_append, List.reverse_cons, List.append_assoc]
        refine ⟨s.takeWhile (fun c => !(c == '@')), midRev.reverse, T.reverse,
          ?_, ?_, hall, ?_, hmidall, ?_, ?_⟩
        · conv_lhs => rw [hsplit]
          rw [h2]
        · intro hnil; rw [hnil] at htne; simp at htne
        · intro hnil
          have : midRev = [] := by
            have := congrArg List.reverse hnil
            simpa using this
          rw [this] at hmne'
          simp at hmne'
        · rw [tldOK, Bool.and_eq_true] at htld
          exact of_decide_eq_true htld.1
        · rw [tldOK, Bool.and_eq_true] at htld
          exact htld.2
  · rintro ⟨l, m, t, hs, hlne, hlall, hmne, hmall, htlen, htall⟩
    subst hs
    have hat : (fun c => !(c == '@')) '@' = false := by simp
    have hl : ∀ x ∈ l, (fun c => !(c == '@')) x = true :=
      all_ne_of_all_class hlall (by decide)
    obtain ⟨htake, hdrop⟩ := takeWhile_append_cons (m ++ '.' :: t) hl hat
    rw [matchesEmailRegex, hdrop, htake]
    have hlE : l.isEmpty = false := by
      cases l with
      | nil => exact absurd rfl hlne
      | cons a r => rfl
    have hrev : (m ++ '.' :: t).reverse = t.reverse ++ '.' :: m.reverse := by
      simp [List.reverse_append, List.reverse_cons, List.append_assoc]
    have hdot : (fun c => !(c == '.')) '.' = false := by simp
    have ht : ∀ x ∈ t.reverse, (fun c => !(c == '.')) x = true := by
      intro x hx
      exact all_ne_of_all_class (q := Char.isAlpha) (by simpa using htall) (by decide) x
        (List.mem_reverse.mp hx)
    obtain ⟨htake2, hdrop2⟩ := takeWhile_append_cons m.reverse ht hdot
    rw [List.tail_cons, domainTailOK, hrev, hdrop2, htake2]
    have hmE : m.reverse.isEmpty = false := by
      cases hm : m.reverse with
      | nil =>
        have : m = [] := by
          have := congrArg List.reverse hm
          simpa using this
        exact absurd this hmne
      | cons a r => rfl
    simp [hlE, hlall, hmE, hmall, tldOK, htlen, htall]

/-- C3: `isValidFormat` first trims leading and trailing whitespace and then
returns true if and only if the entire trimmed string (not merely a
substring) matches the pattern: one-or-more characters from the local class,
a literal at-sign, one-or-more characters from the domain class, a literal
dot, and two-or-more alphabetic characters; it is pure and total (a Lean
function into `Bool`). -/
theorem validate_format_iff_shape (s : List Char) :
    validate_format s = true ↔ EmailShape (pyStrip s) :=
  matches_iff_shape (pyStrip s)

theorem not_mem_of_all_class {q : Char → Bool} {l : List Char} {a : Char}
    (hl : l.all q = true) (ha : q a = false) : a ∉ l := by
  intro hx
  have hq := List.all_eq_true.mp hl a hx
  rw [hq] at ha
  exact Bool.noConfusion ha

theorem pySplit_of_not_mem {sep : Char} :
    ∀ {l : List Char}, sep ∉ l → pySplit sep l = [l] := by
  intro l
  induction l with
  | nil => intro _; rfl
  | cons c rest ih =>
    intro h
    have hc : ¬((c == sep) = true) := by
      simp only [beq_iff_eq]
      intro hh
      exact h (hh ▸ List.mem_cons_self c rest)
    have hrest : sep ∉ rest := fun hm => h (List.mem_cons_of_mem _ hm)
    simp only [pySplit, if_neg hc, ih hrest]

theorem pySplit_append {sep : Char} (r : List Char) :
    ∀ {l : List Char}, sep ∉ l →
      pySplit sep (l ++ sep :: r) = l :: pySplit sep r := by
  intro l
  induction l with
  | nil =>
    intro _
    simp [pySplit]
  | cons c cs ih =>
    intro h
    have hc : ¬((c == sep) = true) := by
      simp only [beq_iff_eq]
      intro hh
      exact h (hh ▸ List.mem_cons_self c cs)
    have hcs : sep ∉ cs := fun hm => h (List.mem_cons_of_mem _ hm)
    have ih' := ih hcs
    simp only [List.cons_append, pySplit, if_neg hc]
    rw [List.append_eq, ih']

theorem shape_split {s l m t : List Char} (hs : s = l ++ '@' :: (m ++ '.' :: t))
    (hlall : l.all isLocalChar = true) (hmall : m.all isDomainChar = true)
    (htall : t.all Char.isAlpha = true) :
    s.count '@' = 1 ∧ pySplit '@' s = [l, m ++ '.' :: t] ∧
      afterFirstAt s = m ++ '.' :: t := by
  have hAl : '@' ∉ l := not_mem_of_all_class hlall (by decide)
  have hAm : '@' ∉ m := not_mem_of_all_class hmall (by decide)
  have hAt : '@' ∉ t := not_mem_of_all_class htall (by decide)
  have hArest : '@' ∉ m ++ '.' :: t := by
    intro hmem
    rcases List.mem_append.mp hmem with hm | hm
    · exact hAm hm
    · rcases List.mem_cons.mp hm with hm | hm
      · exact absurd hm (by decide)
      · exact hAt hm
  refine ⟨?_, ?_, ?_⟩
  · rw [hs, List.count_append, List.count_cons_self, List.count_eq_zero.mpr hAl,
      List.count_eq_zero.mpr hArest]
  · rw [hs, pySplit_append _ hAl, pySplit_of_not_mem hArest]
  · rw [hs, afterFirstAt]
    have hl := all_ne_of_all_class (a := '@') hlall (by decide)
    obtain ⟨-, hdrop⟩ := takeWhile_append_cons (a := '@') (m ++ '.' :: t) hl (by simp)
    rw [hdrop, List.tail_cons]

theorem validate_email_of_format_false (net : Network) (email0 : List Char)
    (cmx cdom : Bool) (h : validate_format email0 = false) :
    validate_email net email0 cmx cdom =
      .ok (⟨pyStrip email0, false, none, none, Status.invalid⟩, []) := by
  simp only [validate_email, validate_format_pyStrip, h]
  simp

/-- C2: an input whose format check fails makes `validate_email` return
immediately with the stripped email, `valid_format = false`, both tri-state
fields unknown, and status `invalid`, for every choice of check flags; the
probe trace is empty and the result does not depend on the network, so no
network probe is invoked. -/
theorem invalid_format_short_circuit (net : Network) (email0 : List Char)
    (check_mx check_domain : Bool) (h : validate_format email0 = false) :
    validate_email net email0 check_mx check_domain =
      .ok (⟨pyStrip email0, false, none, none, Status.invalid⟩, []) :=
  validate_email_of_format_false net email0 check_mx check_domain h

/-- C2 witness: the short-circuit theorem applied to the concrete input
`not-an-email` with both checks requested. -/
theorem invalid_format_short_circuit_witness :
    validate_format ("not-an-email".toList) = false ∧
      validate_email constNet ("not-an-email".toList) true true =
        .ok (⟨pyStrip ("not-an-email".toList), false, none, none, Status.invalid⟩, []) :=
  ⟨by decide, invalid_format_short_circuit constNet ("not-an-email".toList) true true (by decide)⟩

/-- C1: once the format check passes, a returned result is never `invalid`,
and it is `doubtful` exactly when a requested check recorded a negative
signal — `valid` otherwise, so a skipped check never demotes the verdict. -/
theorem classifier_after_format (net : Network) (email0 : List Char)
    (check_mx check_domain : Bool) (hfmt : validate_format email0 = true)
    (r : ValidationResult) (tr : List ProbeCall)
    (hok : validate_email net email0 check_mx check_domain = .ok (r, tr)) :
    r.status ≠ Status.invalid ∧
      (r.status = Status.doubtful ↔
        ((check_mx = true ∧ r.has_mx = some false) ∨
          (check_domain = true ∧ r.domain_exists = some false))) ∧
      (r.status = Status.valid ↔
        ¬((check_mx = true ∧ r.has_mx = some false) ∨
          (check_domain = true ∧ r.domain_exists = some false))) := by
  cases check_mx with
  | false =>
    cases check_domain with
    | false =>
      simp [validate_email, validate_format_pyStrip, hfmt, classify, pyNot] at hok
      obtain ⟨hr, -⟩ := hok
      subst hr
      simp
    | true =>
      cases hH : net.host ((pySplit '@' (pyStrip email0))[1]?.getD []) with
      | address =>
        simp [validate_email, validate_format_pyStrip, hfmt, check_domain_exists, hH,
          classify, pyNot] at hok
        obtain ⟨hr, -⟩ := hok
        subst hr
        simp
      | raisesGaierror =>
        simp [validate_email, validate_format_pyStrip, hfmt, check_domain_exists, hH,
          classify, pyNot] at hok
        obtain ⟨hr, -⟩ := hok
        subst hr
        simp
      | raisesOther =>
        simp [validate_email, validate_format_pyStrip, hfmt, check_domain_exists, hH] at hok
  | true =>
    cases hb : check_mx_records net ((pySplit '@' (pyStrip email0))[1]?.getD []) with
    | false =>
      cases check_domain with
      | false =>
        simp [validate_email, validate_format_pyStrip, hfmt, hb, classify, pyNot] at hok
        obtain ⟨hr, -⟩ := hok
        subst hr
        simp
      | true =>
        cases hH : net.host ((pySplit '@' (pyStrip email0))[1]?.getD []) with
        | address =>
          simp [validate_email, validate_format_pyStrip, hfmt, hb, check_domain_exists, hH,
            classify, pyNot] at hok
          obtain ⟨hr, -⟩ := hok
          subst hr
          simp
        | raisesGaierror =>
          simp [validate_email, validate_format_pyStrip, hfmt, hb, check_domain_exists, hH,
            classify, pyNot] at hok
          obtain ⟨hr, -⟩ := hok
          subst hr
          simp
        | raisesOther =>
          simp [validate_email, validate_format_pyStrip, hfmt, check_domain_exists, hH] at hok
    | true =>
      cases check_domain with
      | false =>
        simp [validate_email, validate_format_pyStrip, hfmt, hb, classify, pyNot] at hok
        obtain ⟨hr, -⟩ := hok
        subst hr
        simp
      | true =>
        cases hH : net.host ((pySplit '@' (pyStrip email0))[1]?.getD []) with
        | address =>
          simp [validate_email, validate_format_pyStrip, hfmt, hb, check_domain_exists, hH,
            classify, pyNot] at hok
          obtain ⟨hr, -⟩ := hok
          subst hr
          simp
        | raisesGaierror =>
          simp [validate_email, validate_format_pyStrip, hfmt, hb, check_domain_exists, hH,
            classify, pyNot] at hok
          obtain ⟨hr, -⟩ := hok
          subst hr
          simp
        | raisesOther =>
          simp [validate_email, validate_format_pyStrip, hfmt, check_domain_exists, hH] at hok

/-- C1 witness: the classifier theorem applied to `a@b.co` with both checks
requested on a network where both probes answer positively. -/
theorem classifier_after_format_witness :
    validate_format ("a@b.co".toList) = true ∧
      (let R : ValidationResult := ⟨pyStrip ("a@b.co".toList), true, some true, some true,
        Status.valid⟩
       R.status ≠ Status.invalid ∧
        (R.status = Status.doubtful ↔
          ((true = true ∧ R.has_mx = some false) ∨ (true = true ∧ R.domain_exists = some false))) ∧
        (R.status = Status.valid ↔
          ¬((true = true ∧ R.has_mx = some false) ∨
            (true = true ∧ R.domain_exists = some false)))) :=
  ⟨by decide, classifier_after_format constNet ("a@b.co".toList) true true (by decide)
    ⟨pyStrip ("a@b.co".toList), true, some true, some true, Status.valid⟩
    [ProbeCall.mx ("b.co".toList), ProbeCall.host ("b.co".toList)] (by rfl)⟩

/-- C4 counterexample: the claimed invariant "hasMX and domainExists are
unknown if and only if the corresponding check was not requested" is false
for every result, as stated: on the concrete input `not-an-email` with both
checks requested, the format check fails and both fields stay unknown even
though both checks were requested. -/
theorem unknown_iff_not_requested_counterexample :
    ¬ (∀ (net : Network) (email0 : List Char) (cmx cdom : Bool)
        (r : ValidationResult) (tr : List ProbeCall),
        validate_email net email0 cmx cdom = .ok (r, tr) →
        ((r.has_mx = none ↔ cmx = false) ∧ (r.domain_exists = none ↔ cdom = false))) := by
  intro hclaim
  have h := hclaim constNet ("not-an-email".toList) true true
    ⟨pyStrip ("not-an-email".toList), false, none, none, Status.invalid⟩ [] (by rfl)
  exact Bool.noConfusion (h.1.mp rfl)

/-- C4 (amended): in every result whose format is valid, `has_mx` and
`domain_exists` are unknown exactly when the corresponding check was not
requested (a failed lookup is recorded as `some false`, never as unknown);
when the format is invalid both fields are unknown regardless of the
requested flags. -/
theorem tri_state_fields (net : Network) (email0 : List Char)
    (check_mx check_domain : Bool) (r : ValidationResult) (tr : List ProbeCall)
    (hok : validate_email net email0 check_mx check_domain = .ok (r, tr)) :
    (r.valid_format = true →
      ((r.has_mx = none ↔ check_mx = false) ∧
        (r.domain_exists = none ↔ check_domain = false))) ∧
    (r.valid_format = false → (r.has_mx = none ∧ r.domain_exists = none)) := by
  by_cases hfmt : validate_format email0 = true
  · cases check_mx with
    | false =>
      cases check_domain with
      | false =>
        simp [validate_email, validate_format_pyStrip, hfmt, classify, pyNot] at hok
        obtain ⟨hr, -⟩ := hok
        subst hr
        simp
      | true =>
        simp [validate_email, validate_format_pyStrip, hfmt, classify, pyNot] at hok
        split at hok
        · simp at hok
        · simp [classify, pyNot] at hok
          obtain ⟨hr, -⟩ := hok
          subst hr
          simp
    | true =>
      cases check_domain with
      | false =>
        simp [validate_email, validate_format_pyStrip, hfmt, classify, pyNot] at hok
        obtain ⟨hr, -⟩ := hok
        subst hr
        simp
      | true =>
        simp [validate_email, validate_format_pyStrip, hfmt, classify, pyNot] at hok
        split at hok
        · simp at hok
        · simp [classify, pyNot] at hok
          obtain ⟨hr, -⟩ := hok
          subst hr
          simp
  · have hfmt' : validate_format email0 = false := by
      revert hfmt
      cases validate_format email0 <;> simp
    rw [validate_email_of_format_false net email0 check_mx check_domain hfmt'] at hok
    have h2 := Except.ok.inj hok
    rw [Prod.mk.injEq] at h2
    obtain ⟨hr, -⟩ := h2
    subst hr
    simp

/-- C4 witness: the amended field theorem applied to `a@b.co` with the MX
check requested and the domain check skipped. -/
theorem tri_state_fields_witness :
    (let R : ValidationResult := ⟨pyStrip ("a@b.co".toList), true, some true, none, Status.valid⟩
     (R.valid_format = true →
        ((R.has_mx = none ↔ true = false) ∧ (R.domain_exists = none ↔ false = false))) ∧
       (R.valid_format = false → (R.has_mx = none ∧ R.domain_exists = none))) :=
  tri_state_fields constNet ("a@b.co".toList) true false
    ⟨pyStrip ("a@b.co".toList), true, some true, none, Status.valid⟩
    [ProbeCall.mx ("b.co".toList)] (by rfl)

/-- C5: the MX probe returns true exactly when the MX query returns an
answer with at least one record, and false in every other case — including
every raised exception, which the two `except` clauses absorb; the function
is total (returns a `Bool` for every outcome), so no error reaches its
caller. -/
theorem check_mx_records_spec (net : Network) (domain : List Char) :
    (check_mx_records net domain = true ↔
      ∃ n, net.mx domain = MxOutcome.answer n ∧ 0 < n) ∧
    (check_mx_records net domain = false ↔
      ¬ ∃ n, net.mx domain = MxOutcome.answer n ∧ 0 < n) := by
  cases h : net.mx domain with
  | answer n => simp [check_mx_records, h]
  | raises e => cases e <;> simp [check_mx_records, h]

/-- C5 witness: the MX-probe theorem applied to a network answering one
record and to a network whose resolver raises. -/
theorem check_mx_records_spec_witness :
    check_mx_records constNet ("b.co".toList) = true ∧
      check_mx_records raisingNet ("b.co".toList) = false :=
  ⟨(check_mx_records_spec constNet ("b.co".toList)).1.mpr ⟨1, rfl, by decide⟩,
    (check_mx_records_spec raisingNet ("b.co".toList)).2.mpr
      (by rintro ⟨n, hn, -⟩; simp [raisingNet] at hn)⟩

/-- C6 counterexample: the domain-existence probe does not return false on
every resolution failure — on a network where the lookup raises an exception
other than `gaierror` (as CPython's `gethostbyname` does for the malformed
domain `b..com`, whose idna encoding fails), the probe propagates the fault
instead of returning a boolean. -/
theorem check_domain_exists_counterexample :
    check_domain_exists badHostNet ("b..com".toList) = .error () ∧
      ¬ check_domain_exists badHostNet ("b..com".toList) = .ok false := by
  refine ⟨rfl, ?_⟩
  intro h
  simp [check_domain_exists, badHostNet] at h

/-- C6 (amended): the domain-existence probe returns true exactly when the
forward resolution succeeds with an address, returns false exactly when the
resolution raises `socket.gaierror` (name not found, network error), and
propagates the fault uncaught exactly when the lookup raises any other
exception. -/
theorem check_domain_exists_amended (net : Network) (domain : List Char) :
    (check_domain_exists net domain = .ok true ↔ net.host domain = .address) ∧
      (check_domain_exists net domain = .ok false ↔ net.host domain = .raisesGaierror) ∧
      (check_domain_exists net domain = .error () ↔ net.host domain = .raisesOther) := by
  cases h : net.host domain <;> simp [check_domain_exists, h]

/-- C6 witness: the amended probe theorem applied to a succeeding network
and to a network raising `gaierror`. -/
theorem check_domain_exists_amended_witness :
    check_domain_exists constNet ("b.co".toList) = .ok true ∧
      check_domain_exists raisingNet ("b.co".toList) = .ok false :=
  ⟨(check_domain_exists_amended constNet ("b.co".toList)).1.mpr rfl,
    (check_domain_exists_amended raisingNet ("b.co".toList)).2.1.mpr rfl⟩

/-- C7 (code evaluation at the failing input): because `EMAIL_REGEX` is
anchored, `extract_emails_from_text` finds nothing in a text that merely
contains an address as a proper substring — contradicting the claim that
every matching substring is found — while it does return a text that is an
address in its entirety (optionally followed by one final newline, which the
trailing dollar of the pattern tolerates). -/
theorem extract_emails_anchored_eval :
    extract_emails_from_text ("contact alice@example.com today".toList) = [] ∧
      extract_emails_from_text ("alice@example.com".toList) =
        [("alice@example.com".toList)] ∧
      extract_emails_from_text ("alice@example.com\n".toList) =
        [("alice@example.com".toList)] :=
  ⟨rfl, rfl, rfl⟩

/-- C10: when the format check succeeds, the stripped string contains
exactly one at-sign, and `email.split('@')[1]` is defined and equals the
substring after the first at-sign, so the Validator's domain extraction
never fails on a format-valid address. -/
theorem validate_format_domain_defined (s : List Char)
    (h : validate_format s = true) :
    (pyStrip s).count '@' = 1 ∧
      (pySplit '@' (pyStrip s))[1]? = some (afterFirstAt (pyStrip s)) ∧
      (pySplit '@' (pyStrip s)).getD 1 [] = afterFirstAt (pyStrip s) := by
  obtain ⟨l, m, t, hs, -, hlall, -, hmall, -, htall⟩ := (matches_iff_shape (pyStrip s)).mp h
  obtain ⟨hcount, hsplit, hafter⟩ := shape_split hs hlall hmall htall
  refine ⟨hcount, ?_, ?_⟩
  · rw [hsplit, hafter]
    rfl
  · rw [hsplit, hafter]
    rfl

/-- C10 witness: the domain-extraction theorem applied to `a@b.co`. -/
theorem validate_format_domain_defined_witness :
    validate_format ("a@b.co".toList) = true ∧
      ((pyStrip ("a@b.co".toList)).count '@' = 1 ∧
        (pySplit '@' (pyStrip ("a@b.co".toList)))[1]? =
          some (afterFirstAt (pyStrip ("a@b.co".toList))) ∧
        (pySplit '@' (pyStrip ("a@b.co".toList))).getD 1 [] =
          afterFirstAt (pyStrip ("a@b.co".toList))) :=
  ⟨by decide, validate_format_domain_defined ("a@b.co".toList) (by decide)⟩

theorem validate_email_ne_error {net : Network}
    (hnet : ∀ d, net.host d ≠ HostOutcome.raisesOther)
    (e : List Char) (cmx cdom : Bool) :
    validate_email net e cmx cdom ≠ .error () := by
  intro hbad
  by_cases hf : validate_format e = true
  · cases cdom with
    | false => simp [validate_email, validate_format_pyStrip, hf] at hbad
    | true =>
      cases hH : net.host ((pySplit '@' (pyStrip e))[1]?.getD []) with
      | address =>
        simp [validate_email, validate_format_pyStrip, hf, check_domain_exists, hH] at hbad
      | raisesGaierror =>
        simp [validate_email, validate_format_pyStrip, hf, check_domain_exists, hH] at hbad
      | raisesOther => exact hnet _ hH
  · have hf' : validate_format e = false := by
      revert hf
      cases validate_format e <;> simp
    rw [validate_email_of_format_false net e cmx cdom hf'] at hbad
    exact Except.noConfusion hbad

theorem validate_email_email_field {net : Network} {e : List Char} {cmx cdom : Bool}
    {r : ValidationResult} {tr : List ProbeCall}
    (hok : validate_email net e cmx cdom = .ok (r, tr)) : r.email = pyStrip e := by
  by_cases hf : validate_format e = true
  · cases cdom with
    | false =>
      simp [validate_email, validate_format_pyStrip, hf] at hok
      obtain ⟨hr, -⟩ := hok
      subst hr
      rfl
    | true =>
      simp [validate_email, validate_format_pyStrip, hf] at hok
      split at hok
      · simp at hok
      · simp at hok
        obtain ⟨hr, -⟩ := hok
        subst hr
        rfl
  · have hf' : validate_format e = false := by
      revert hf
      cases validate_format e <;> simp
    rw [validate_email_of_format_false net e cmx cdom hf'] at hok
    have h2 := Except.ok.inj hok
    rw [Prod.mk.injEq] at h2
    obtain ⟨hr, -⟩ := h2
    subst hr
    rfl

theorem exists_ok_of_ne_error {x : Except Unit (ValidationResult × List ProbeCall)}
    (h : x ≠ .error ()) : ∃ r tr, x = .ok (r, tr) := by
  cases x with
  | error err => cases err; exact absurd rfl h
  | ok y => exact ⟨y.1, y.2, by simp⟩

theorem batchLoop_benign {net : Network}
    (hnet : ∀ d, net.host d ≠ HostOutcome.raisesOther)
    (cmx cdom : Bool) (total : Nat) :
    ∀ (l : List (List Char)) (processed : Nat),
      ∃ rs, batchLoop net cmx cdom total l processed =
          .ok (rs, (List.range l.length).map
            (fun k : Nat => ((processed : ℚ) + (k : ℚ) + 1) / (total : ℚ) * 100)) ∧
        rs.length = l.length ∧ rs.map (fun x => x.email) = l.map pyStrip := by
  intro l
  induction l with
  | nil => intro processed; exact ⟨[], rfl, rfl, rfl⟩
  | cons e rest ih =>
    intro processed
    obtain ⟨r, tr, hok⟩ := exists_ok_of_ne_error (validate_email_ne_error hnet e cmx cdom)
    have hmail := validate_email_email_field hok
    obtain ⟨rs, hloop, hlen, hmap⟩ := ih (processed + 1)
    have hev : ((processed : ℚ) + 1) / (total : ℚ) * 100 ::
        (List.range rest.length).map
          (fun k : Nat => (((processed + 1 : Nat) : ℚ) + (k : ℚ) + 1) / (total : ℚ) * 100) =
        (List.range (rest.length + 1)).map
          (fun k : Nat => ((processed : ℚ) + (k : ℚ) + 1) / (total : ℚ) * 100) := by
      rw [List.range_succ_eq_map, List.map_cons, List.map_map]
      congr 1
      · norm_num
      · refine List.map_congr_left fun k _ => ?_
        simp only [Function.comp_apply, Nat.succ_eq_add_one]
        push_cast
        ring
    refine ⟨r :: rs, ?_, by simp [hlen], by simp [hmap, hmail]⟩
    simp only [batchLoop, hok, hloop, List.length_cons]
    rw [← hev]

theorem validate_file_core_benign {net : Network}
    (hnet : ∀ d, net.host d ≠ HostOutcome.raisesOther)
    (cmx cdom : Bool) (emails order : List (List Char)) (workers : Nat)
    (hne : emails.isEmpty = false) :
    ∃ rs, validate_file_core net cmx cdom emails order workers =
        .ok ⟨rs, (List.range order.length).map
            (fun k : Nat => (((0 : Nat) : ℚ) + (k : ℚ) + 1) / ((emails.length : ℚ)) * 100),
          some (rs.countP (fun x => x.status == Status.valid),
            rs.countP (fun x => x.status == Status.doubtful),
            rs.countP (fun x => x.status == Status.invalid))⟩ ∧
      rs.length = order.length ∧ rs.map (fun x => x.email) = order.map pyStrip := by
  obtain ⟨rs, hloop, hlen, hmap⟩ := batchLoop_benign hnet cmx cdom emails.length order 0
  refine ⟨rs, ?_, hlen, hmap⟩
  rw [validate_file_core, hne]
  rw [if_neg (by decide : ¬ (false = true))]
  rw [hloop]

/-- C8 counterexample: the batch does not always return one result per input
address.  On the one-line input `user@b..com` with both checks requested,
the domain probe raises an exception that is not a `gaierror` (CPython's
idna encoding fails on the empty label), `future.result()` re-raises it,
and the run aborts with no result collection at all instead of returning
one result. -/
theorem validate_file_core_abort_counterexample :
    validate_file_core badHostNet true true
      [("user@b..com".toList)] [("user@b..com".toList)] 1 = .error () := by
  rfl

/-- C8 (amended): provided no domain probe raises an exception other than
`gaierror`, the batch over N addresses returns exactly N results — one per
input address, correlated by the stripped email string, for every worker
count and every completion order — and the empty input returns an empty
result collection with no progress events and no summary. -/
theorem batch_completeness_amended (net : Network) (cmx cdom : Bool)
    (emails order : List (List Char)) (workers : Nat)
    (hnet : ∀ d, net.host d ≠ HostOutcome.raisesOther)
    (hperm : order.Perm emails) :
    (∃ out, validate_file_core net cmx cdom emails order workers = .ok out ∧
        out.results.length = emails.length ∧
        (out.results.map (fun x => x.email)).Perm (emails.map pyStrip)) ∧
      validate_file_core net cmx cdom [] [] workers = .ok ⟨[], [], none⟩ := by
  constructor
  · cases hE : emails.isEmpty with
    | true =>
      have hnil : emails = [] := by
        cases emails with
        | nil => rfl
        | cons a l => exact Bool.noConfusion hE
      refine ⟨⟨[], [], none⟩, ?_, ?_, ?_⟩
      · rw [validate_file_core, hE, if_pos rfl]
      · simp [hnil]
      · simp [hnil]
    | false =>
      obtain ⟨rs, hcore, hlen, hmap⟩ :=
        validate_file_core_benign hnet cmx cdom emails order workers hE
      refine ⟨_, hcore, ?_, ?_⟩
      · show rs.length = emails.length
        rw [hlen, hperm.length_eq]
      · show (rs.map (fun x => x.email)).Perm (emails.map pyStrip)
        rw [hmap]
        exact hperm.map pyStrip
  · rw [validate_file_core]
    rfl

/-- C8 witness: the amended batch theorem applied to the one-line input
`a@b.co` on a fully answering network with one worker. -/
theorem batch_completeness_amended_witness :
    (∃ out, validate_file_core constNet true true
          [("a@b.co".toList)] [("a@b.co".toList)] 1 = .ok out ∧
        out.results.length = [("a@b.co".toList)].length ∧
        (out.results.map (fun x => x.email)).Perm
          ([("a@b.co".toList)].map pyStrip)) ∧
      validate_file_core constNet true true [] [] 1 = .ok ⟨[], [], none⟩ :=
  batch_completeness_amended constNet true true [("a@b.co".toList)] [("a@b.co".toList)] 1
    (fun d => by simp [constNet]) (List.Perm.refl _)

/-- C9 counterexample: the progress stream of a non-empty run does not
always end at one hundred percent.  On the two-line input below, the first
future completes (the program prints 50 percent) and the second raises
uncaught out of the domain probe, aborting the collection loop: the run
propagates the exception and no progress stream reaching one hundred
percent is produced. -/
theorem progress_abort_counterexample :
    validate_file_core mixedNet true true
      [("a@b.co".toList), ("user@b..com".toList)]
      [("a@b.co".toList), ("user@b..com".toList)] 2 = .error () := by
  rfl

/-- C9 (amended): provided no domain probe raises an exception other than
`gaierror`, a batch over a non-empty input emits exactly one progress event
per completed invocation, the k-th event carries ((k+1) / total) * 100, the
sequence is monotonically non-decreasing, and the final emission equals
one hundred percent. -/
theorem progress_events_amended (net : Network) (cmx cdom : Bool)
    (emails order : List (List Char)) (workers : Nat)
    (hnet : ∀ d, net.host d ≠ HostOutcome.raisesOther)
    (hne : emails ≠ [])
    (hperm : order.Perm emails) :
    ∃ rs ev sm, validate_file_core net cmx cdom emails order workers = .ok ⟨rs, ev, sm⟩ ∧
      ev.length = rs.length ∧
      ev.length = emails.length ∧
      ev = (List.range emails.length).map
        (fun k : Nat => ((k : ℚ) + 1) / (emails.length : ℚ) * 100) ∧
      ev.Pairwise (fun a b => a ≤ b) ∧
      ev.getLast? = some 100 := by
  have hE : emails.isEmpty = false := by
    cases emails with
    | nil => exact absurd rfl hne
    | cons a l => rfl
  obtain ⟨rs, hcore, hlen, -⟩ :=
    validate_file_core_benign hnet cmx cdom emails order workers hE
  have hev : (List.range order.length).map
      (fun k : Nat => (((0 : Nat) : ℚ) + (k : ℚ) + 1) / ((emails.length : ℚ)) * 100) =
      (List.range emails.length).map
        (fun k : Nat => ((k : ℚ) + 1) / (emails.length : ℚ) * 100) := by
    rw [hperm.length_eq]
    refine List.map_congr_left fun k _ => ?_
    push_cast
    ring
  have hpos : 0 < emails.length := List.length_pos.mpr hne
  have hN : (0 : ℚ) < (emails.length : ℚ) := by exact_mod_cast hpos
  refine ⟨rs, _, _, hcore, ?_, ?_, hev, ?_, ?_⟩
  · rw [hev]
    simp only [List.length_map, List.length_range]
    rw [hlen, hperm.length_eq]
  · rw [hev]
    simp only [List.length_map, List.length_range]
  · rw [hev, List.pairwise_map]
    refine (List.pairwise_lt_range emails.length).imp ?_
    intro a b hab
    have h1 : ((a : ℚ) + 1) ≤ ((b : ℚ) + 1) := by
      have : (a : ℚ) ≤ (b : ℚ) := by exact_mod_cast hab.le
      linarith
    exact mul_le_mul_of_nonneg_right ((div_le_div_iff_of_pos_right hN).mpr h1) (by norm_num)
  · rw [hev]
    obtain ⟨n, hn⟩ := Nat.exists_eq_succ_of_ne_zero (Nat.pos_iff_ne_zero.mp hpos)
    simp only [hn, List.range_succ, List.map_append, List.map_cons, List.map_nil,
      List.getLast?_concat]
    have hq : ((n : ℚ) + 1) ≠ 0 := by positivity
    rw [show ((n + 1 : Nat) : ℚ) = (n : ℚ) + 1 by push_cast; ring, div_self hq, one_mul]

/-- C9 witness: the amended progress theorem applied to the one-line input
`a@b.co` on a fully answering network with ten workers. -/
theorem progress_events_amended_witness :
    ∃ rs ev sm, validate_file_core constNet true true
        [("a@b.co".toList)] [("a@b.co".toList)] 10 = .ok ⟨rs, ev, sm⟩ ∧
      ev.length = rs.length ∧
      ev.length = [("a@b.co".toList)].length ∧
      ev = (List.range [("a@b.co".toList)].length).map
        (fun k : Nat => ((k : ℚ) + 1) / (([("a@b.co".toList)].length : ℚ)) * 100) ∧
      ev.Pairwise (fun a b => a ≤ b) ∧
      ev.getLast? = some 100 :=
  progress_events_amended constNet true true [("a@b.co".toList)] [("a@b.co".toList)] 10
    (fun d => by simp [constNet]) (by simp) (List.Perm.refl _)
